import Mathlib

/-!
Verification of the language-detection subsystem in
`src/vs/workbench/services/languageDetection/browser/languageDetectionWorkerServiceImpl.ts`.

The TypeScript classes `LanguageDetectionService` and
`LanguageDetectionWorkerClient` are shallowly embedded below: pure helpers
become Lean functions, the mutable fields of the service/client become an
explicit state record threaded through step functions, and JavaScript
promises that can reject are modelled with `Except`.  JavaScript runs the
synchronous prefix of each method atomically on a single thread, so a run of
N (possibly interleaved) calls is modelled as N sequential applications of
the corresponding step function.
-/

namespace LangDetect

/-- Opaque language identifier (`string` in the source). -/
abbrev LanguageId := String

/-! ## History store

`historicalGlobalOpenedLanguageIds` / `historicalWorkspaceOpenedLanguageIds`
are `LRUCache<string, true>(10)` instances.  The `LRUCache` implementation
(`vs/base/common/map.ts`) is not part of the excerpt. -/

/-- Modelled from the spec: the `LRUCache<string, true>(10)` history store
(`vs/base/common/map.ts` is outside the excerpt).  "Ordered set of
LanguageId, capacity exactly 10, eviction policy = drop least-recently-touched
on insert past capacity; touching a present entry moves it to most-recent
position (refresh, no growth)."  `entries` is ordered least-recently-touched
first, most-recently-touched last. -/
structure HistorySet where
  entries : List LanguageId
deriving Repr, DecidableEq

/-- The empty history set (initial state of both caches). -/
def HistorySet.empty : HistorySet := ⟨[]⟩

/-- Modelled from the spec: the entry list after touching `id` — remove a
present occurrence, append `id` as most-recent, and past capacity 10 drop
from the least-recently-touched end. -/
def touchList (entries : List LanguageId) (id : LanguageId) : List LanguageId :=
  if 10 < (entries.filter (fun x => x ≠ id) ++ [id]).length then
    (entries.filter (fun x => x ≠ id) ++ [id]).drop
      ((entries.filter (fun x => x ≠ id) ++ [id]).length - 10)
  else
    entries.filter (fun x => x ≠ id) ++ [id]

/-- Modelled from the spec: `touch(id)` inserts/refreshes `id` as the
most-recent entry; on insert past capacity 10 the least-recently-touched
entry is dropped. -/
def HistorySet.touch (s : HistorySet) (id : LanguageId) : HistorySet :=
  ⟨touchList s.entries id⟩

/-- Modelled from the spec: `load` / `fromJSON` replaces the contents by the
parsed entries, inserted oldest-first through `touch` (so capacity is still
enforced). -/
def HistorySet.fromList (l : List LanguageId) : HistorySet :=
  l.foldl (fun s id => s.touch id) HistorySet.empty

/-! ## Bias calculator

Embeds `LanguageDetectionService.getLanguageBiases`.  The TypeScript
`Record<string, number>` is modelled as `String → Option Nat` (`none` means
the key is absent, `biases[lang] ?? 0` is `(m lang).getD 0`).  The four
sources are `Set`s / LRU key lists, i.e. duplicate-free lists. -/

/-- A bias record: `none` for an absent key. -/
def BiasMap := LanguageId → Option Nat

/-- One assignment `biases[lang] = (biases[lang] ?? 0) + w`. -/
def addBias (m : BiasMap) (w : Nat) (lang : LanguageId) : BiasMap :=
  fun k => if k = lang then some ((m lang).getD 0 + w) else m k

/-- One `forEach` pass: `ids.forEach(lang => biases[lang] = (biases[lang] ?? 0) + w)`. -/
def addBiases (m : BiasMap) (ids : List LanguageId) (w : Nat) : BiasMap :=
  ids.foldl (fun acc lang => addBias acc w lang) m

/-- `LanguageDetectionService.getLanguageBiases`: weights 4 (session),
3 (workspace), 2 (workspace history), 1 (global history), applied in source
order to an initially empty record. -/
def getLanguageBiases (session workspace histWorkspace histGlobal : List LanguageId) :
    BiasMap :=
  addBiases (addBiases (addBiases (addBiases (fun _ => none) session 4)
    workspace 3) histWorkspace 2) histGlobal 1

/-! ## Canonical-id resolution -/

/-- The external `ILanguageService` collaborator: an exact-id membership test
and a filename-based guess (`guessLanguageIdByFilepathOrFirstLine`, here fed
the path of `URI.file(path)`; the TS `?? undefined` null-normalisation is
absorbed by `Option`). -/
structure LanguageRegistry where
  isRegisteredLanguageId : LanguageId → Bool
  guessLanguageIdByFilepathOrFirstLine : String → Option LanguageId

/-- `LanguageDetectionService.getLanguageId`.  `!language` is the JS falsy
test, true for `undefined` and for the empty string. -/
def getLanguageId (reg : LanguageRegistry) (language : Option String) : Option LanguageId :=
  match language with
  | none => none
  | some l =>
    if l = "" then none
    else if reg.isRegisteredLanguageId l then some l
    else reg.guessLanguageIdByFilepathOrFirstLine ("file." ++ l)

/-- The tail of `LanguageDetectionService.detectLanguage`:
`if (language) { return this.getLanguageId(language); } return undefined;`
applied to the raw code the worker returned. -/
def resolveDetected (reg : LanguageRegistry) (workerResult : Option String) :
    Option LanguageId :=
  match workerResult with
  | none => none
  | some l => if l = "" then none else getLanguageId reg (some l)

/-! ## Detection orchestrator state

The mutable fields of `LanguageDetectionService` relevant to
`detectLanguage`.  `Set<string>` fields are duplicate-free lists. -/

structure ServiceState where
  hasResolvedWorkspaceLanguageIds : Bool
  workspaceLanguageIds : List LanguageId
  sessionOpenedLanguageIds : List LanguageId
  historicalWorkspaceOpenedLanguageIds : HistorySet
  historicalGlobalOpenedLanguageIds : HistorySet
deriving Repr, DecidableEq

/-- The synchronous prefix of `LanguageDetectionService.detectLanguage`
(lines 129–135): read the history-enablement flag, trigger
`resolveWorkspaceLanguageIds` when enabled and not yet triggered (that method
sets `hasResolvedWorkspaceLanguageIds = true` synchronously, before the
asynchronous extension enumeration), then compute the bias argument for the
worker client.  Returns (bias argument passed to the client, whether a
resolution pass was triggered, successor state). -/
def detectLanguageStep (useHistory : Bool) (st : ServiceState) :
    Option BiasMap × Bool × ServiceState :=
  let trigger := useHistory && !st.hasResolvedWorkspaceLanguageIds
  let st' := if trigger then { st with hasResolvedWorkspaceLanguageIds := true } else st
  let biases :=
    if useHistory then
      some (getLanguageBiases st'.sessionOpenedLanguageIds st'.workspaceLanguageIds
        st'.historicalWorkspaceOpenedLanguageIds.entries
        st'.historicalGlobalOpenedLanguageIds.entries)
    else none
  (biases, trigger, st')

/-- A run of `n` `detectLanguage` calls: the final state together with the
number of calls that triggered a workspace-resolution pass. -/
def runDetectCalls (useHistory : Bool) (st : ServiceState) : Nat → ServiceState × Nat
  | 0 => (st, 0)
  | n + 1 =>
    let r := detectLanguageStep useHistory st
    let rest := runDetectCalls useHistory r.2.2 n
    (rest.1, (if r.2.1 then 1 else 0) + rest.2)

/-! ## Worker boundary client

`LanguageDetectionWorkerClient.workerPromise :
Promise<IWorkerClient<…>> | undefined` is an `Option` of a settled outcome:
`Except E H` models a promise that resolved with handle `h : H` or rejected
with error `e : E`.  The check-and-assign in
`_getOrCreateLanguageDetectionWorker` is synchronous (no `await` between the
test and the assignment), so each call is one atomic step even under
interleaved callers. -/

/-- `_getOrCreateLanguageDetectionWorker`: return the memoized promise if
present, otherwise start one creation attempt (outcome `creation`) and
memoize it.  Returns (outcome observed by this call, successor state,
whether this call started a creation attempt). -/
def getOrCreateWorker {E H : Type} (creation : Except E H) :
    Option (Except E H) → Except E H × Option (Except E H) × Bool
  | some p => (p, some p, false)
  | none => (creation, some creation, true)

/-- A run of `n` calls through `_getOrCreateLanguageDetectionWorker`: the
list of outcomes the calls observed, the final memoized state, and the
number of creation attempts started. -/
def runWorkerCalls {E H : Type} (creation : Except E H) (st : Option (Except E H)) :
    Nat → List (Except E H) × Option (Except E H) × Nat
  | 0 => ([], st, 0)
  | n + 1 =>
    let r := getOrCreateWorker creation st
    let rest := runWorkerCalls creation r.2.1 n
    (r.1 :: rest.1, rest.2.1, (if r.2.2 then 1 else 0) + rest.2.2)

/-- `LanguageDetectionWorkerClient.detectLanguage`: awaits the memoized
worker (`_getProxy`), then the proxy call.  A rejected memoized promise makes
the call reject with the same error; otherwise the proxy's detection result
(`proxyDetect`) is returned. -/
def clientDetectLanguage {E H : Type} (creation : Except E H)
    (proxyDetect : H → Option String) (st : Option (Except E H)) :
    Except E (Option String) × Option (Except E H) × Bool :=
  let r := getOrCreateWorker creation st
  match r.1 with
  | .error e => (.error e, r.2.1, r.2.2)
  | .ok h => (.ok (proxyDetect h), r.2.1, r.2.2)

/-- A run of `n` `detectLanguage` calls on one client: observed results,
final memoized state, number of creation attempts started. -/
def runClientDetect {E H : Type} (creation : Except E H)
    (proxyDetect : H → Option String) (st : Option (Except E H)) :
    Nat → List (Except E (Option String)) × Option (Except E H) × Nat
  | 0 => ([], st, 0)
  | n + 1 =>
    let r := clientDetectLanguage creation proxyDetect st
    let rest := runClientDetect creation proxyDetect r.2.1 n
    (r.1 :: rest.1, rest.2.1, (if r.2.2 then 1 else 0) + rest.2.2)

/-! ## History loading at initialization

`initEditorOpenedListeners`, lines 144–152.  Each stored payload is
abstracted by its parse outcome: `some l` when `JSON.parse` (plus
`fromJSON`) succeeds with entries `l`; `none` when the payload is malformed
and `JSON.parse` throws (caught, set left unchanged).  A missing key yields
the default `'[]'`, i.e. `some []`.

The source contains a slip: both `try` blocks call
`this.historicalGlobalOpenedLanguageIds.fromJSON(…)` — the workspace-scoped
payload (line 150, `workspaceLangHistroyData`) is loaded into the GLOBAL
set (line 151), and `historicalWorkspaceOpenedLanguageIds` is never loaded.
The embedding below reproduces the source as written. -/

structure HistoryPair where
  globalHist : HistorySet
  workspaceHist : HistorySet
deriving Repr, DecidableEq

/-- The two load blocks of `initEditorOpenedListeners`, as written in the
source (both target the global set). -/
def loadHistory (globalParse workspaceParse : Option (List LanguageId)) : HistoryPair :=
  let g1 := match globalParse with
    | some l => HistorySet.fromList l
    | none => HistorySet.empty
  let g2 := match workspaceParse with
    | some l => HistorySet.fromList l
    | none => g1
  ⟨g2, HistorySet.empty⟩

/-- The load the spec describes, for comparison: each scope's payload
populates that scope's set, malformed payloads leave it empty. -/
def loadHistorySpec (globalParse workspaceParse : Option (List LanguageId)) : HistoryPair :=
  ⟨(globalParse.map HistorySet.fromList).getD HistorySet.empty,
   (workspaceParse.map HistorySet.fromList).getD HistorySet.empty⟩

/-- The body of the `onDidActiveEditorChange` listener (lines 155–162) for a
truthy active language id: add to the session set, touch both history sets. -/
def editorOpened (st : ServiceState) (activeLanguage : LanguageId) : ServiceState :=
  if activeLanguage = "" then st
  else
    { st with
      sessionOpenedLanguageIds :=
        if activeLanguage ∈ st.sessionOpenedLanguageIds then st.sessionOpenedLanguageIds
        else st.sessionOpenedLanguageIds ++ [activeLanguage]
      historicalGlobalOpenedLanguageIds :=
        st.historicalGlobalOpenedLanguageIds.touch activeLanguage
      historicalWorkspaceOpenedLanguageIds :=
        st.historicalWorkspaceOpenedLanguageIds.touch activeLanguage }

end LangDetect

namespace LangDetect

/-! ## Helper lemmas -/

/-- A `forEach` bias pass over a duplicate-free list adds `w` exactly once to
every listed key and leaves other keys untouched. -/
theorem addBiases_apply (ids : List LanguageId) (w : Nat) (m : BiasMap) (k : LanguageId)
    (hnd : ids.Nodup) :
    addBiases m ids w k = if k ∈ ids then some ((m k).getD 0 + w) else m k := by
  induction ids generalizing m with
  | nil => simp [addBiases]
  | cons a t ih =>
    have hnd' : t.Nodup := (List.nodup_cons.mp hnd).2
    have ha : a ∉ t := (List.nodup_cons.mp hnd).1
    have step : addBiases m (a :: t) w k = addBiases (addBias m w a) t w k := rfl
    rw [step, ih (addBias m w a) hnd']
    by_cases hk : k ∈ t
    · have hka : k ≠ a := fun h => ha (h ▸ hk)
      simp [hk, hka, addBias, List.mem_cons]
    · by_cases hka : k = a
      · subst hka
        simp [hk, addBias]
      · simp [hk, hka, addBias, List.mem_cons]

/-! ## Claim theorems -/

/-- C2: for duplicate-free source sets, `getLanguageBiases` assigns every
id present in at least one source the weight 4·[session] + 3·[workspace] +
2·[workspace history] + 1·[global history], and ids in no source are absent
from the record. -/
theorem getLanguageBiases_weights
    (session workspace histWs histGlobal : List LanguageId) (lang : LanguageId)
    (hs : session.Nodup) (hw : workspace.Nodup)
    (hhw : histWs.Nodup) (hhg : histGlobal.Nodup) :
    getLanguageBiases session workspace histWs histGlobal lang =
      if lang ∈ session ∨ lang ∈ workspace ∨ lang ∈ histWs ∨ lang ∈ histGlobal then
        some ((if lang ∈ session then 4 else 0) + (if lang ∈ workspace then 3 else 0)
          + (if lang ∈ histWs then 2 else 0) + (if lang ∈ histGlobal then 1 else 0))
      else none := by
  unfold getLanguageBiases
  rw [addBiases_apply _ _ _ _ hhg, addBiases_apply _ _ _ _ hhw,
    addBiases_apply _ _ _ _ hw, addBiases_apply _ _ _ _ hs]
  by_cases h1 : lang ∈ session <;> by_cases h2 : lang ∈ workspace <;>
    by_cases h3 : lang ∈ histWs <;> by_cases h4 : lang ∈ histGlobal <;>
    simp [h1, h2, h3, h4]

/-- Witness for C2: the spec's end-to-end scenario, session = python,
workspace = go, workspace history = rust, global history = ts. -/
theorem getLanguageBiases_weights_witness :
    getLanguageBiases ["python"] ["go"] ["rust"] ["ts"] "python" = some 4 ∧
    getLanguageBiases ["python"] ["go"] ["rust"] ["ts"] "go" = some 3 ∧
    getLanguageBiases ["python"] ["go"] ["rust"] ["ts"] "rust" = some 2 ∧
    getLanguageBiases ["python"] ["go"] ["rust"] ["ts"] "ts" = some 1 ∧
    getLanguageBiases ["python"] ["go"] ["rust"] ["ts"] "java" = none := by
  refine ⟨?_, ?_, ?_, ?_, ?_⟩ <;>
    rw [getLanguageBiases_weights _ _ _ _ _ (by decide) (by decide) (by decide) (by decide)] <;>
    decide

/-- C7: when the history-based-detection configuration value is falsy, the
bias argument passed to the worker boundary client is `undefined`, whatever
the session/workspace/history sets hold. -/
theorem history_disabled_no_bias (st : ServiceState) :
    (detectLanguageStep false st).1 = none := by
  simp [detectLanguageStep]

/-- C10: an empty-string or absent raw code from the worker yields
`undefined` from `detectLanguage` without consulting the registry (the
result is `none` for every registry), and `getLanguageId` likewise returns
`undefined` on empty or `undefined` input. -/
theorem empty_raw_code_no_guess (reg : LanguageRegistry) :
    resolveDetected reg (some "") = none ∧ resolveDetected reg none = none ∧
    getLanguageId reg (some "") = none ∧ getLanguageId reg none = none := by
  refine ⟨?_, rfl, ?_, rfl⟩ <;> simp [resolveDetected, getLanguageId]

/-- C6: a non-empty raw code that is a registered id is returned unchanged;
an unregistered one is resolved through the probe filename `file.<code>`,
whose guess (possibly "no guess" = `none`) is the result. -/
theorem detect_canonical_resolution (reg : LanguageRegistry) (code : String)
    (h : code ≠ "") :
    resolveDetected reg (some code) =
      (if reg.isRegisteredLanguageId code then some code
       else reg.guessLanguageIdByFilepathOrFirstLine ("file." ++ code)) := by
  simp [resolveDetected, getLanguageId, h]

/-- Witness for C6: a registry knowing exactly `python`, guessing
`typescript` for `file.ts` and nothing for other filenames; a registered
code, an unregistered code with a filename guess, and the spec's `xyzzy`
with no guess. -/
theorem detect_canonical_resolution_witness :
    resolveDetected ⟨fun l => l == "python",
      fun p => if p == "file.ts" then some "typescript" else none⟩ (some "python")
        = some "python" ∧
    resolveDetected ⟨fun l => l == "python",
      fun p => if p == "file.ts" then some "typescript" else none⟩ (some "ts")
        = some "typescript" ∧
    resolveDetected ⟨fun l => l == "python",
      fun p => if p == "file.ts" then some "typescript" else none⟩ (some "xyzzy")
        = none := by
  refine ⟨?_, ?_, ?_⟩ <;>
    rw [detect_canonical_resolution _ _ (by decide)] <;> decide

/-- Once `workerPromise` is memoized as `p`, further calls start no creation
attempt, observe `p`, and leave the memoized state unchanged. -/
theorem runWorkerCalls_memoized {E H : Type} (creation p : Except E H) (n : Nat) :
    runWorkerCalls creation (some p) n = (List.replicate n p, some p, 0) := by
  induction n with
  | zero => rfl
  | succ m ih => simp [runWorkerCalls, getOrCreateWorker, ih, List.replicate_succ]

/-- C3: a run of `n ≥ 1` calls through `_getOrCreateLanguageDetectionWorker`
on a fresh client starts exactly one creation attempt, and every call
observes the single memoized outcome. -/
theorem worker_single_flight {E H : Type} (creation : Except E H) (n : Nat)
    (hn : 1 ≤ n) :
    runWorkerCalls creation none n = (List.replicate n creation, some creation, 1) := by
  obtain ⟨m, rfl⟩ : ∃ m, n = m + 1 := ⟨n - 1, (Nat.succ_pred_eq_of_pos hn).symm⟩
  simp [runWorkerCalls, getOrCreateWorker, runWorkerCalls_memoized,
    List.replicate_succ]

/-- Witness for C3: three calls on a fresh client whose creation succeeds
with handle `0` — one creation attempt, all three calls share its outcome. -/
theorem worker_single_flight_witness :
    runWorkerCalls (Except.ok 0 : Except String Nat) none 3 =
      ([Except.ok 0, Except.ok 0, Except.ok 0], some (Except.ok 0), 1) := by
  have h := worker_single_flight (Except.ok 0 : Except String Nat) 3 (by decide)
  simpa using h

/-- Once `workerPromise` is memoized as `p`, every further client
`detectLanguage` call observes the outcome determined by `p` and starts no
creation attempt. -/
theorem runClientDetect_memoized {E H : Type} (creation p : Except E H)
    (proxyDetect : H → Option String) (n : Nat) :
    runClientDetect creation proxyDetect (some p) n =
      (List.replicate n
        (match p with
          | .error e => Except.error e
          | .ok h => Except.ok (proxyDetect h)),
       some p, 0) := by
  induction n with
  | zero => rfl
  | succ m ih =>
    cases p <;>
      simp [runClientDetect, clientDetectLanguage, getOrCreateWorker, ih,
        List.replicate_succ]

/-- C5: when the single creation attempt fails with `e`, the failure is
memoized: every one of `n ≥ 1` client `detectLanguage` calls rejects with
that same `e`, and exactly one creation attempt is ever started. -/
theorem worker_failure_memoized {E H : Type} (e : E)
    (proxyDetect : H → Option String) (n : Nat) (hn : 1 ≤ n) :
    runClientDetect (Except.error e : Except E H) proxyDetect none n =
      (List.replicate n (Except.error e), some (Except.error e), 1) := by
  obtain ⟨m, rfl⟩ : ∃ m, n = m + 1 := ⟨n - 1, (Nat.succ_pred_eq_of_pos hn).symm⟩
  simp [runClientDetect, clientDetectLanguage, getOrCreateWorker,
    runClientDetect_memoized, List.replicate_succ]

/-- Witness for C5: two `detectLanguage` calls on a client whose creation
rejected with "boom" — both reject with "boom", one creation attempt. -/
theorem worker_failure_memoized_witness :
    runClientDetect (Except.error "boom" : Except String Nat) (fun _ => none) none 2 =
      ([Except.error "boom", Except.error "boom"], some (Except.error "boom"), 1) := by
  have h := @worker_failure_memoized String Nat "boom" (fun _ => none) 2 (by decide)
  simpa using h

/-- Once `hasResolvedWorkspaceLanguageIds` is set, further `detectLanguage`
calls never trigger another resolution pass and never clear the flag. -/
theorem runDetectCalls_resolved (st : ServiceState)
    (h : st.hasResolvedWorkspaceLanguageIds = true) (n : Nat) :
    (runDetectCalls true st n).2 = 0 ∧
      (runDetectCalls true st n).1.hasResolvedWorkspaceLanguageIds = true := by
  induction n generalizing st with
  | zero => exact ⟨rfl, h⟩
  | succ m ih =>
    have hstep : (detectLanguageStep true st).2 = (false, st) := by
      simp [detectLanguageStep, h]
    simp only [runDetectCalls, hstep]
    simpa using ih st h

/-- C4: starting with `hasResolvedWorkspaceLanguageIds = false`, a run of
`n ≥ 1` `detectLanguage` calls with history-based detection enabled triggers
the workspace-resolution pass exactly once, the final state has
`hasResolvedWorkspaceLanguageIds = true`, and a call issued in any state
whose flag is already set triggers no pass. -/
theorem detect_triggers_resolution_once (st : ServiceState) (n : Nat)
    (hst : st.hasResolvedWorkspaceLanguageIds = false) (hn : 1 ≤ n) :
    (runDetectCalls true st n).2 = 1 ∧
      (runDetectCalls true st n).1.hasResolvedWorkspaceLanguageIds = true ∧
      ∀ st' : ServiceState, st'.hasResolvedWorkspaceLanguageIds = true →
        (detectLanguageStep true st').2.1 = false := by
  obtain ⟨m, rfl⟩ : ∃ m, n = m + 1 := ⟨n - 1, (Nat.succ_pred_eq_of_pos hn).symm⟩
  have hstep : (detectLanguageStep true st).2 =
      (true, { st with hasResolvedWorkspaceLanguageIds := true }) := by
    simp [detectLanguageStep, hst]
  have hrest := runDetectCalls_resolved
    { st with hasResolvedWorkspaceLanguageIds := true } rfl m
  refine ⟨?_, ?_, ?_⟩
  · simp only [runDetectCalls, hstep]
    simpa using hrest.1
  · simp only [runDetectCalls, hstep]
    simpa using hrest.2
  · intro st' h'
    simp [detectLanguageStep, h']

/-- Witness for C4: two detection calls on a freshly constructed service —
exactly one resolution pass is triggered. -/
theorem detect_triggers_resolution_once_witness :
    (runDetectCalls true ⟨false, [], [], HistorySet.empty, HistorySet.empty⟩ 2).2 = 1 := by
  exact (detect_triggers_resolution_once
    ⟨false, [], [], HistorySet.empty, HistorySet.empty⟩ 2 rfl (by decide)).1

/-- Removing one present element from a duplicate-free list shortens it by
exactly one. -/
theorem length_filter_ne_of_nodup (l : List LanguageId) (a : LanguageId)
    (hnd : l.Nodup) (ha : a ∈ l) :
    (l.filter (fun x => x ≠ a)).length + 1 = l.length := by
  induction l with
  | nil => cases ha
  | cons b t ih =>
    have hbt : b ∉ t := (List.nodup_cons.mp hnd).1
    have hnd' : t.Nodup := (List.nodup_cons.mp hnd).2
    rw [List.filter_cons]
    by_cases hb : b = a
    · subst hb
      have hpb : (decide (b ≠ b)) = false := by simp
      rw [hpb, if_neg (by simp)]
      have hft : t.filter (fun x => x ≠ b) = t :=
        List.filter_eq_self.mpr (fun x hx => decide_eq_true (fun h => hbt (h ▸ hx)))
      rw [hft]
      simp
    · have hat : a ∈ t := by
        rcases List.mem_cons.mp ha with h | h
        · exact absurd h.symm hb
        · exact h
      have hih := ih hnd' hat
      have hpb : (decide (b ≠ a)) = true := decide_eq_true hb
      rw [hpb, if_pos rfl]
      simp only [List.length_cons]
      omega

/-- The touched list never exceeds capacity 10. -/
theorem touchList_length_le (l : List LanguageId) (id : LanguageId) :
    (touchList l id).length ≤ 10 := by
  unfold touchList
  by_cases h : 10 < (l.filter (fun x => x ≠ id) ++ [id]).length
  · rw [if_pos h, List.length_drop]
    omega
  · rw [if_neg h]
    omega

/-- Touching a full (10-entry) list with a fresh id drops exactly the
least-recently-touched head entry. -/
theorem touchList_evict (l : List LanguageId) (id : LanguageId)
    (hid : id ∉ l) (h10 : l.length = 10) :
    touchList l id = l.tail ++ [id] := by
  have hf : l.filter (fun x => x ≠ id) = l :=
    List.filter_eq_self.mpr (fun x hx => decide_eq_true (fun h => hid (h ▸ hx)))
  have he : (l.filter (fun x => x ≠ id) ++ [id]).length = 11 := by
    rw [List.length_append, hf, h10]
    rfl
  unfold touchList
  rw [if_pos (by omega), he, hf]
  show (l ++ [id]).drop 1 = l.tail ++ [id]
  rw [List.drop_append_of_le_length (by omega), List.drop_one]

/-- Touching a present id in a duplicate-free list keeps the length and
moves the id to the most-recent (last) position. -/
theorem touchList_refresh (l : List LanguageId) (id : LanguageId)
    (hnd : l.Nodup) (hlen : l.length ≤ 10) (hid : id ∈ l) :
    (touchList l id).length = l.length ∧ (touchList l id).getLast? = some id := by
  have hflen : (l.filter (fun x => x ≠ id)).length + 1 = l.length :=
    length_filter_ne_of_nodup l id hnd hid
  have he : (l.filter (fun x => x ≠ id) ++ [id]).length = l.length := by
    rw [List.length_append]
    simpa using hflen
  unfold touchList
  rw [if_neg (by omega)]
  refine ⟨he, ?_⟩
  rw [List.getLast?_append_cons]
  rfl

/-- C8: a history set holding at most 10 duplicate-free entries keeps at
most 10 after any `touch`; inserting an 11th distinct id into a full set
evicts exactly the least-recently-touched entry (the head) and the size
stays 10; touching a present id keeps the size and moves that id to the
most-recent position. -/
theorem historySet_capacity_and_eviction (s : HistorySet) (id : LanguageId)
    (hnd : s.entries.Nodup) (hlen : s.entries.length ≤ 10) :
    (s.touch id).entries.length ≤ 10 ∧
    (id ∉ s.entries → s.entries.length = 10 →
      (s.touch id).entries = s.entries.tail ++ [id] ∧
        (s.touch id).entries.length = 10) ∧
    (id ∈ s.entries →
      (s.touch id).entries.length = s.entries.length ∧
        (s.touch id).entries.getLast? = some id) := by
  refine ⟨touchList_length_le s.entries id, ?_, ?_⟩
  · intro hid h10
    have hev : touchList s.entries id = s.entries.tail ++ [id] :=
      touchList_evict s.entries id hid h10
    constructor
    · exact hev
    · show (touchList s.entries id).length = 10
      rw [hev, List.length_append, List.length_tail, h10]
      rfl
  · intro hid
    exact touchList_refresh s.entries id hnd hlen hid

/-- Witness for C8: a full set of ten distinct ids touched with a new id —
the oldest entry "a" is evicted, the size stays 10. -/
theorem historySet_capacity_witness :
    (HistorySet.touch ⟨["a", "b", "c", "d", "e", "f", "g", "h", "i", "j"]⟩ "k").entries =
      ["b", "c", "d", "e", "f", "g", "h", "i", "j", "k"] ∧
    (HistorySet.touch ⟨["a", "b", "c", "d", "e", "f", "g", "h", "i", "j"]⟩ "k").entries.length
      ≤ 10 := by
  have h := historySet_capacity_and_eviction
    ⟨["a", "b", "c", "d", "e", "f", "g", "h", "i", "j"]⟩ "k" (by decide) (by decide)
  exact ⟨by decide, h.1⟩

/-- C1 (evaluation of the load slip): with an empty global payload and a
workspace payload `["rust"]`, initialization puts "rust" into the GLOBAL
history set and leaves the workspace history set empty — the workspace slot
does not populate the workspace `HistorySet`, diverging from
`loadHistorySpec`. -/
theorem loadHistory_workspace_slot_misrouted :
    loadHistory (some []) (some ["rust"]) = ⟨⟨["rust"]⟩, HistorySet.empty⟩ ∧
    loadHistorySpec (some []) (some ["rust"]) = ⟨HistorySet.empty, ⟨["rust"]⟩⟩ ∧
    (loadHistory (some []) (some ["rust"])).workspaceHist ≠
      (loadHistorySpec (some []) (some ["rust"])).workspaceHist := by
  decide

/-- C9 (evaluation of the load slip): with a malformed global payload and a
well-formed workspace payload `["rust"]`, the global history set — whose own
payload was malformed — ends up non-empty, unlike under `loadHistorySpec`. -/
theorem loadHistory_malformed_global_nonempty :
    (loadHistory none (some ["rust"])).globalHist ≠ HistorySet.empty ∧
    (loadHistorySpec none (some ["rust"])).globalHist = HistorySet.empty ∧
    (loadHistory none (some ["rust"])).workspaceHist = HistorySet.empty := by
  decide

end LangDetect
